import Mathlib

/-!
# Socks5BalancerAsio: relay-id counter and TCP probe bookkeeping

A shallow embedding of `src/SessionRelayId.h` and `src/TcpTest.cpp`.

## SessionRelayId

The process-wide counter `lastRelayId` is a 64-bit `size_t`; it is embedded as a
natural number and every increment is taken modulo `2^64`. The mutex only
serialises the calls, so each call is a function of the counter value it finds and
returns the pair (returned value, counter afterwards).

## TcpTestSession and TcpTest

* A pointer is a natural number, `0` being the null pointer. `World.heap` gives the
  session object behind every address; `World.brk` counts the sessions `make_shared`
  has handed out so far (they live at the addresses `1 .. brk`).
* `std::function` members are modelled by whether they hold a target; invoking one
  appends an entry to `World.calls`. A callback does not call back into the probe.
* `resolver_`, `stream_` and the timers belong to the I/O library. Their completion
  handlers reach the session as the calls `allOk()` and `fail()`; `cancel()` and
  `close()` only act on those objects, and `startTime` / `timePing` are clock values.
  None of this is part of the state below.
* `TcpTest::sessions` is a `std::set` of shared pointers: a duplicate-free list in
  address order. Erasing an element invalidates every iterator that refers to it, and
  advancing such an iterator is undefined; so is calling through a null pointer. A call
  that does either returns a `Fault` instead of a state.
* Object lifetimes are not modelled: a session object stays at its address, whoever
  still holds a shared pointer to it.
* `TcpTest.h` is not among the sources. What `TcpTest.cpp` needs from it is taken as
  follows: `parent` is a `std::weak_ptr<TcpTest>` (it is `lock()`ed), recorded per
  session as the result of `parent.lock()`; the initial value of `_isComplete` is a
  parameter of `createTest`.
-/

namespace SessionRelayId

/-- Number of values of a 64-bit `size_t`. -/
def sizeRange : Nat := 2 ^ 64

/-- The constant `std::numeric_limits<size_t>::max()`. -/
def sizeMax : Nat := sizeRange - 1

/-- Source `relayIdMod()`: `numeric_limits<decltype(lastRelayId)>::max() / 2`. -/
def relayIdMod : Nat := sizeMax / 2

/-- Source `readRelayId()`: returns `lastRelayId + 1` (unsigned arithmetic) and
writes nothing; the result pairs the returned value with the counter afterwards. -/
def readRelayId (lastRelayId : Nat) : Nat × Nat :=
  ((lastRelayId + 1) % sizeRange, lastRelayId)

/-- The guard of `getNextRelayId()`:
`if (lastRelayId > relayIdMod()) { lastRelayId = 0; }`. -/
def resetPastHalf (lastRelayId : Nat) : Nat :=
  if lastRelayId > relayIdMod then 0 else lastRelayId

/-- Source `getNextRelayId()`: the guard, then `return ++lastRelayId;`.
The result pairs the returned value with the counter afterwards. -/
def getNextRelayId (lastRelayId : Nat) : Nat × Nat :=
  let lastRelayId := (resetPastHalf lastRelayId + 1) % sizeRange
  (lastRelayId, lastRelayId)

/-- The ids returned by `k` consecutive calls of `getNextRelayId()` that find
the counter at `c`. -/
def callsFrom : Nat → Nat → List Nat
  | _, 0 => []
  | c, k + 1 => (getNextRelayId c).1 :: callsFrom (getNextRelayId c).2 k

/-- The counter after `k` consecutive calls of `getNextRelayId()` from `c`. -/
def counterAfter : Nat → Nat → Nat
  | c, 0 => c
  | c, k + 1 => counterAfter (getNextRelayId c).2 k

/-- None of `k` consecutive calls from counter `c` takes the reset branch. -/
def noReset : Nat → Nat → Bool
  | _, 0 => true
  | c, k + 1 => decide (c ≤ relayIdMod) && noReset (getNextRelayId c).2 k

end SessionRelayId

/-- Which of the two user callbacks of a probe was invoked. -/
inductive Fired where
  | onOk
  | onErr
deriving DecidableEq

/-- The ways a call leaves defined behaviour. -/
inductive Fault where
  | nullDereference
  | invalidatedIterator
  | wildPointer
deriving DecidableEq

/-- The struct `CallbackContainer` behind `TcpTestSession::callback`: for each
`std::function` member, whether it holds a target. -/
structure CallbackContainer where
  successfulCallback : Bool
  failedCallback : Bool
deriving DecidableEq

/-- The members of `TcpTestSession` that `TcpTest.cpp` reads or writes outside the I/O
library: `callback` (a `unique_ptr`, `none` when reset), `parent` (whether
`parent.lock()` yields the owning `TcpTest`), `delayTime` and `_isComplete`. -/
structure TcpTestSession where
  callback : Option CallbackContainer
  parent : Bool
  delayTime : Nat
  _isComplete : Bool
deriving DecidableEq

/-- The program state: the session objects by address, the allocation count, the two
members of the one `TcpTest` (`cleanTimer` is true when the pointer is set, `sessions`
is the registry) and the user callbacks invoked so far, oldest first. -/
@[ext]
structure World where
  heap : Nat → TcpTestSession
  brk : Nat
  cleanTimer : Bool
  sessions : List Nat
  calls : List (Nat × Fired)

namespace World

/-- A `TcpTest` right after construction: no timer, empty registry, no session
allocated, nothing invoked. -/
def init : World where
  heap := fun _ => ⟨none, false, 0, true⟩
  brk := 0
  cleanTimer := false
  sessions := []
  calls := []

/-- Write the session object at address `p`. -/
def setSession (w : World) (p : Nat) (s : TcpTestSession) : World :=
  { w with heap := Function.update w.heap p s }

/-- Invoke a user callback of the session at `p`. -/
def invoke (w : World) (p : Nat) (f : Fired) : World :=
  { w with calls := w.calls ++ [(p, f)] }

end World

namespace TcpTest

/-- Source `TcpTest::releaseTcpTestSession(ptr)`: erase `ptr` from `sessions` when it
is there, otherwise only log a warning. -/
def releaseTcpTestSession (ptr : Nat) (w : World) : World :=
  if ptr ∈ w.sessions then
    { w with sessions := w.sessions.filter (fun q => q ≠ ptr) }
  else
    w

end TcpTest

namespace TcpTestSession

/-- Source `TcpTestSession::release()`: `callback.reset()`, then
`releaseTcpTestSession(shared_from_this())` on the parent when `parent.lock()` succeeds
(a warning otherwise), then `_isComplete = true`. -/
def release (this : Nat) (w : World) : World :=
  let w := w.setSession this { (w.heap this) with callback := none }
  let w := if (w.heap this).parent then TcpTest.releaseTcpTestSession this w else w
  w.setSession this { (w.heap this) with _isComplete := true }

/-- Source `TcpTestSession::stop()`: `resolver_.cancel(); stream_.cancel();
stream_.close();` on the I/O objects, then `release()`. -/
def stop (this : Nat) (w : World) : World :=
  release this w

/-- Source `TcpTestSession::allOk()`: invoke `successfulCallback` when the container
and the function are both set, then `stop()`. -/
def allOk (this : Nat) (w : World) : World :=
  let w :=
    match (w.heap this).callback with
    | some cb => if cb.successfulCallback then w.invoke this Fired.onOk else w
    | none => w
  stop this w

/-- Source `TcpTestSession::fail(ec, what)`: build and log the message, invoke
`failedCallback` when the container and the function are both set, then `stop()`. -/
def fail (this : Nat) (w : World) : World :=
  let w :=
    match (w.heap this).callback with
    | some cb => if cb.failedCallback then w.invoke this Fired.onErr else w
    | none => w
  stop this w

/-- Source `TcpTestSession::run(onOk, onErr)`: a new `CallbackContainer` holding the
two functions (each possibly empty); `do_resolve()` is then started at once or after
`delayTime`, which is I/O. -/
def run (this : Nat) (onOk onErr : Bool) (w : World) : World :=
  w.setSession this { (w.heap this) with callback := some ⟨onOk, onErr⟩ }

/-- Source `TcpTestSession::isComplete()`. -/
def isComplete (this : Nat) (w : World) : Bool :=
  (w.heap this)._isComplete

end TcpTestSession

namespace TcpTest

/-- The erase loop shared by `do_cleanTimer` and `TcpTest::stop()`:
`if (!(*it) || (*it)->isComplete()) it = sessions.erase(it); else ++it;`. -/
def sweep (w : World) : World :=
  { w with
    sessions := w.sessions.filter (fun p => !(p == 0 || TcpTestSession.isComplete p w)) }

/-- The completion handler `c` of `TcpTest::do_cleanTimer()`, called with `e` set or
not. With `e` set it cancels and resets `this->cleanTimer`; otherwise it sweeps the
registry, re-arms the captured timer and calls `do_cleanTimer()`, which waits on
`this->cleanTimer`. Both go through the member pointer. -/
def cleanTimerHandler (e : Bool) (w : World) : Except Fault World :=
  if e then
    if w.cleanTimer then .ok { w with cleanTimer := false }
    else .error Fault.nullDereference
  else
    let w := sweep w
    if w.cleanTimer then .ok w else .error Fault.nullDereference

/-- Source `TcpTest::createTest(host, port, maxRandomDelay)`: start the clean timer when
there is none, `make_shared` a session whose parent is this `TcpTest` and whose delay
is `getRandom(0, maxRandomDelay)` (the draw `rnd`) when `maxRandomDelay > 0` and `0`
otherwise, insert it into `sessions`, return it. `isComplete0` is the initial value
of `_isComplete` from the session's declaration. -/
def createTest (isComplete0 : Bool) (maxRandomDelay rnd : Nat) (w : World) : Nat × World :=
  let w := if !w.cleanTimer then { w with cleanTimer := true } else w
  let s := w.brk + 1
  let w := { w with brk := s }
  let w := w.setSession s ⟨none, true, if maxRandomDelay > 0 then rnd else 0, isComplete0⟩
  let w :=
    if s ∈ w.sessions then w
    else { w with sessions := w.sessions.orderedInsert (· ≤ ·) s }
  (s, w)

/-- The loop `for (auto &a: sessions) { a->stop(); }` of `TcpTest::stop()`, from the
iterator position whose remaining elements are `a :: rest`. The body calls through
`a`, so a null `a` is a fault. After the body the loop advances the iterator that
refers to `a`: when `a->stop()` has erased `a` from `sessions` that iterator is
invalid, a fault as well; when `a` is still there the body has erased nothing and the
loop goes on with `rest`. -/
def stopEach : List Nat → World → Except Fault World
  | [], w => .ok w
  | a :: rest, w =>
    if a = 0 then .error Fault.nullDereference
    else
      let w := TcpTestSession.stop a w
      if a ∈ w.sessions then stopEach rest w else .error Fault.invalidatedIterator

/-- Source `TcpTest::stop()`: cancel and reset the clean timer when it is set, call
`stop()` on every element of `sessions`, then erase the null and the completed
elements. -/
def stop (w : World) : Except Fault World :=
  let w := if w.cleanTimer then { w with cleanTimer := false } else w
  match stopEach w.sessions w with
  | .ok w => .ok (sweep w)
  | .error f => .error f

end TcpTest

/-- The calls that reach one session after `run`: a completion handler ending in
`allOk()`, one ending in `fail(ec, what)`, or `stop()`. -/
inductive Event where
  | allOk
  | fail
  | stop
deriving DecidableEq

namespace TcpTestSession

/-- Deliver one event to the session at `this`. -/
def deliver (this : Nat) (e : Event) (w : World) : World :=
  match e with
  | Event.allOk => allOk this w
  | Event.fail => fail this w
  | Event.stop => stop this w

/-- Deliver a sequence of events to the session at `this`, first to last. -/
def deliverAll (this : Nat) (evs : List Event) (w : World) : World :=
  evs.foldl (fun w e => deliver this e w) w

end TcpTestSession

/-- The calls a client, a completion handler or the timer makes on the prober and its
sessions. -/
inductive Op where
  | createTest (maxRandomDelay rnd : Nat)
  | run (p : Nat) (onOk onErr : Bool)
  | allOk (p : Nat)
  | fail (p : Nat)
  | sessionStop (p : Nat)
  | cleanTimerFired (e : Bool)
  | proberStop
  | releaseTcpTestSession (ptr : Nat)
deriving DecidableEq

/-- A member call through the session pointer `p`: defined when `p` is the address of
a session that has been created. -/
def onSession (w : World) (p : Nat) (f : World → World) : Except Fault World :=
  if p = 0 then .error Fault.nullDereference
  else if p ≤ w.brk then .ok (f w)
  else .error Fault.wildPointer

/-- One call. A session made by `createTest` starts with `_isComplete = false`. -/
def step (w : World) : Op → Except Fault World
  | Op.createTest m r => .ok (TcpTest.createTest false m r w).2
  | Op.run p a b => onSession w p (TcpTestSession.run p a b)
  | Op.allOk p => onSession w p (TcpTestSession.allOk p)
  | Op.fail p => onSession w p (TcpTestSession.fail p)
  | Op.sessionStop p => onSession w p (TcpTestSession.stop p)
  | Op.cleanTimerFired e => TcpTest.cleanTimerHandler e w
  | Op.proberStop => TcpTest.stop w
  | Op.releaseTcpTestSession ptr => .ok (TcpTest.releaseTcpTestSession ptr w)

/-- A sequence of calls, first to last, as long as each stays within defined
behaviour. -/
def exec : List Op → World → Except Fault World
  | [], w => .ok w
  | op :: ops, w =>
    match step w op with
    | .ok w' => exec ops w'
    | .error f => .error f

/-- The state a sequence of calls leaves when started on a new `TcpTest`. -/
def afterOps (ops : List Op) : World :=
  match exec ops World.init with
  | .ok w => w
  | .error _ => World.init

/-- The registry invariant: every registered pointer is the address of a created
session that is not complete, and every created session can lock its parent. -/
structure RegistryInv (w : World) : Prop where
  live : ∀ p ∈ w.sessions, 1 ≤ p ∧ p ≤ w.brk ∧ TcpTestSession.isComplete p w = false
  owned : ∀ p, 1 ≤ p → p ≤ w.brk → (w.heap p).parent = true

/-- A new `TcpTest` on which `createTest` was called once: one session, at address
`1`, registered and not yet run. -/
def oneProbe : World :=
  (TcpTest.createTest false 0 0 World.init).2

/-- A new `TcpTest` with two sessions from `createTest`, at the addresses `1` and `2`,
both run with both callbacks set. -/
def twoProbes : World :=
  TcpTestSession.run 2 true true
    (TcpTestSession.run 1 true true
      (TcpTest.createTest false 0 0 (TcpTest.createTest false 0 0 World.init).2).2)

/-- A history that creates three probes, completes the first through `allOk()`, stops
the second from outside and lets the timer fire in between. -/
def sampleOps : List Op :=
  [Op.createTest 0 0, Op.createTest 100 37, Op.run 1 true true, Op.allOk 1,
    Op.cleanTimerFired false, Op.run 2 true false, Op.sessionStop 2, Op.createTest 0 0]
namespace SessionRelayId

theorem relayIdMod_eq : relayIdMod = 2 ^ 63 - 1 := by
  norm_num [relayIdMod, sizeMax, sizeRange]

theorem getNextRelayId_of_le {c : Nat} (h : c ≤ relayIdMod) :
    getNextRelayId c = (c + 1, c + 1) := by
  have hm := relayIdMod_eq
  have hlt : (c + 1) % sizeRange = c + 1 := by
    apply Nat.mod_eq_of_lt
    simp only [sizeRange]
    omega
  simp [getNextRelayId, resetPastHalf, Nat.not_lt.mpr h, hlt]

theorem getNextRelayId_of_gt {c : Nat} (h : c > relayIdMod) :
    getNextRelayId c = (1, 1) := by
  simp [getNextRelayId, resetPastHalf, h, sizeRange]

theorem callsFrom_of_noReset (k : Nat) : ∀ c, noReset c k = true →
    callsFrom c k = List.range' (c + 1) k ∧ counterAfter c k = c + k := by
  induction k with
  | zero => intro c _; simp [callsFrom, counterAfter]
  | succ k ih =>
    intro c h
    simp only [noReset, Bool.and_eq_true, decide_eq_true_eq] at h
    have hg := getNextRelayId_of_le h.1
    rw [hg] at h
    obtain ⟨h1, h2⟩ := ih (c + 1) h.2
    simp only [callsFrom, counterAfter, hg, h1, h2, List.range'_succ]
    exact ⟨trivial, by omega⟩

theorem noReset_of_le (k : Nat) : ∀ c, c + k ≤ relayIdMod + 1 → noReset c k = true := by
  induction k with
  | zero => intro c _; rfl
  | succ k ih =>
    intro c h
    have hc : c ≤ relayIdMod := by omega
    simp only [noReset, Bool.and_eq_true, decide_eq_true_eq]
    refine ⟨hc, ?_⟩
    rw [getNextRelayId_of_le hc]
    exact ih (c + 1) (by omega)

/-- Claim C4: on every counter value `c`, `getNextRelayId()` resets the counter to zero
and returns `1` when `c > relayIdMod()`, and returns `c + 1` otherwise; either way the
stored counter afterwards is the returned value. From the counter `2^63 + 1`
(`= maxRange/2 + 1` for `maxRange = 2^64`) two successive calls return `1` and then `2`. -/
theorem getNextRelayId_contract (c : Nat) :
    (if c > relayIdMod then resetPastHalf c = 0 ∧ (getNextRelayId c).1 = 1
      else (getNextRelayId c).1 = c + 1) ∧
    (getNextRelayId c).2 = (getNextRelayId c).1 ∧
    2 ^ 63 + 1 = sizeRange / 2 + 1 ∧
    (getNextRelayId (2 ^ 63 + 1)).1 = 1 ∧
    (getNextRelayId (getNextRelayId (2 ^ 63 + 1)).2).1 = 2 := by
  have hm := relayIdMod_eq
  have h1 : getNextRelayId (2 ^ 63 + 1) = (1, 1) := getNextRelayId_of_gt (by omega)
  have h2 : getNextRelayId 1 = (1 + 1, 1 + 1) := getNextRelayId_of_le (by omega)
  refine ⟨?_, rfl, by norm_num [sizeRange], ?_, ?_⟩
  · split
    · next h => exact ⟨by simp [resetPastHalf, h], by rw [getNextRelayId_of_gt h]⟩
    · next h => rw [getNextRelayId_of_le (Nat.not_lt.mp h)]
  · rw [h1]
  · rw [h1, h2]

/-- Claim C5: for every counter value, `getNextRelayId()` returns `v` with
`1 ≤ v ≤ maxRange/2 = 2^63`, and the increment does not wrap: the value it increments
is below `2^64 - 1`, so the returned value is that value plus one. -/
theorem getNextRelayId_range (c : Nat) :
    1 ≤ (getNextRelayId c).1 ∧ (getNextRelayId c).1 ≤ sizeRange / 2 ∧
    sizeRange / 2 = 2 ^ 63 ∧
    resetPastHalf c + 1 < sizeRange ∧
    (getNextRelayId c).1 = resetPastHalf c + 1 := by
  have hm := relayIdMod_eq
  have hs : sizeRange / 2 = 2 ^ 63 := by norm_num [sizeRange]
  have hr : sizeRange = 2 ^ 64 := rfl
  by_cases h : c > relayIdMod
  · rw [getNextRelayId_of_gt h, hs]
    simp [resetPastHalf, h, hr]
  · have h' := Nat.not_lt.mp h
    have hres : resetPastHalf c = c := by simp [resetPastHalf, h]
    rw [getNextRelayId_of_le h', hs, hres, hr]
    dsimp only
    omega

/-- Claim C6: of two consecutive calls of `getNextRelayId()`, the second returns `1` when
it resets the counter and the first result plus one otherwise. In a run of `k + 1`
consecutive calls none of which, the first apart, resets, the returned ids are strictly
increasing and pairwise distinct. From counter `0` the first `n` calls return
`1, 2, .., n`, the `n`-th returning `n`, for every `n` from `1` to `2^63`. -/
theorem getNextRelayId_consecutive (c k n : Nat)
    (hrun : noReset (getNextRelayId c).2 k = true) (hn1 : 1 ≤ n) (hn2 : n ≤ 2 ^ 63) :
    (if (getNextRelayId c).2 > relayIdMod
      then (getNextRelayId (getNextRelayId c).2).1 = 1
      else (getNextRelayId (getNextRelayId c).2).1 = (getNextRelayId c).1 + 1) ∧
    (callsFrom c (k + 1)).Pairwise (· < ·) ∧ (callsFrom c (k + 1)).Nodup ∧
    callsFrom 0 n = List.range' 1 n ∧
    (getNextRelayId (counterAfter 0 (n - 1))).1 = n := by
  have hm := relayIdMod_eq
  have hinc : (callsFrom c (k + 1)).Pairwise (· < ·) := by
    have h := (callsFrom_of_noReset k _ hrun).1
    have hc : callsFrom c (k + 1) = List.range' (getNextRelayId c).1 (k + 1) := by
      simp only [callsFrom, List.range'_succ]
      rw [h]
      rfl
    rw [hc]
    exact List.pairwise_lt_range' _ _
  refine ⟨?_, hinc, ?_, ?_, ?_⟩
  · split
    · next h => rw [getNextRelayId_of_gt h]
    · next h =>
      rw [getNextRelayId_of_le (Nat.not_lt.mp h)]
      rfl
  · exact hinc.imp (fun h => Nat.ne_of_lt h)
  · exact (callsFrom_of_noReset n 0 (noReset_of_le n 0 (by omega))).1
  · have h := (callsFrom_of_noReset (n - 1) 0 (noReset_of_le (n - 1) 0 (by omega))).2
    rw [h, getNextRelayId_of_le (by omega)]
    simp only []
    omega

theorem getNextRelayId_consecutive_witness :
    noReset (getNextRelayId 5).2 3 = true ∧ 1 ≤ 3 ∧ 3 ≤ 2 ^ 63 ∧
    ((if (getNextRelayId 5).2 > relayIdMod
      then (getNextRelayId (getNextRelayId 5).2).1 = 1
      else (getNextRelayId (getNextRelayId 5).2).1 = (getNextRelayId 5).1 + 1) ∧
    (callsFrom 5 (3 + 1)).Pairwise (· < ·) ∧ (callsFrom 5 (3 + 1)).Nodup ∧
    callsFrom 0 3 = List.range' 1 3 ∧
    (getNextRelayId (counterAfter 0 (3 - 1))).1 = 3) :=
  ⟨by decide, by decide, by norm_num,
    getNextRelayId_consecutive 5 3 3 (by decide) (by decide) (by norm_num)⟩

/-- Claim C9: `readRelayId()` leaves the counter unchanged, and on a `size_t` counter `c`
it returns what the next `getNextRelayId()` returns exactly when `c ≤ relayIdMod()`.
The counter reaches `relayIdMod() + 1 = 2^63` from `0` after `2^63` calls of
`getNextRelayId()`; there `readRelayId()` returns `2^63 + 1` and the next
`getNextRelayId()` returns `1`. -/
theorem readRelayId_vs_next (c : Nat) (hc : c < sizeRange) :
    (readRelayId c).2 = c ∧
    ((readRelayId c).1 = (getNextRelayId (readRelayId c).2).1 ↔ c ≤ relayIdMod) ∧
    relayIdMod + 1 = 2 ^ 63 ∧
    counterAfter 0 (2 ^ 63) = 2 ^ 63 ∧
    (readRelayId (2 ^ 63)).1 = 2 ^ 63 + 1 ∧
    (getNextRelayId (readRelayId (2 ^ 63)).2).1 = 1 := by
  have hm := relayIdMod_eq
  have hr : sizeRange = 2 ^ 64 := rfl
  refine ⟨rfl, ?_, by omega, ?_, ?_, ?_⟩
  · simp only [readRelayId]
    constructor
    · intro h
      by_contra hgt
      rw [getNextRelayId_of_gt (Nat.not_le.mp hgt)] at h
      simp only [] at h
      rw [hr] at h hc
      omega
    · intro h
      rw [getNextRelayId_of_le h]
      simp only []
      apply Nat.mod_eq_of_lt
      omega
  · have h := (callsFrom_of_noReset (2 ^ 63) 0 (noReset_of_le (2 ^ 63) 0 (by omega))).2
    rw [h]; omega
  · simp [readRelayId, hr]
  · simp only [readRelayId]
    rw [getNextRelayId_of_gt (by omega)]

theorem readRelayId_vs_next_witness :
    7 < sizeRange ∧
    ((readRelayId 7).2 = 7 ∧
    ((readRelayId 7).1 = (getNextRelayId (readRelayId 7).2).1 ↔ 7 ≤ relayIdMod) ∧
    relayIdMod + 1 = 2 ^ 63 ∧
    counterAfter 0 (2 ^ 63) = 2 ^ 63 ∧
    (readRelayId (2 ^ 63)).1 = 2 ^ 63 + 1 ∧
    (getNextRelayId (readRelayId (2 ^ 63)).2).1 = 1) :=
  ⟨by norm_num [sizeRange], readRelayId_vs_next 7 (by norm_num [sizeRange])⟩

end SessionRelayId
namespace TcpTest

theorem releaseTcpTestSession_heap (p : Nat) (w : World) :
    (releaseTcpTestSession p w).heap = w.heap := by
  unfold releaseTcpTestSession; split <;> rfl

theorem releaseTcpTestSession_calls (p : Nat) (w : World) :
    (releaseTcpTestSession p w).calls = w.calls := by
  unfold releaseTcpTestSession; split <;> rfl

theorem releaseTcpTestSession_cleanTimer (p : Nat) (w : World) :
    (releaseTcpTestSession p w).cleanTimer = w.cleanTimer := by
  unfold releaseTcpTestSession; split <;> rfl

theorem releaseTcpTestSession_brk (p : Nat) (w : World) :
    (releaseTcpTestSession p w).brk = w.brk := by
  unfold releaseTcpTestSession; split <;> rfl

theorem releaseTcpTestSession_sessions (p : Nat) (w : World) :
    (releaseTcpTestSession p w).sessions = w.sessions.filter (fun q => q ≠ p) := by
  unfold releaseTcpTestSession
  split
  · rfl
  · next h =>
    symm
    rw [List.filter_eq_self]
    intro a ha
    have : a ≠ p := fun e => h (e ▸ ha)
    simpa using this

end TcpTest

namespace TcpTestSession

theorem stop_heap (this : Nat) (w : World) :
    (stop this w).heap = Function.update w.heap this
      { (w.heap this) with callback := none, _isComplete := true } := by
  funext q
  unfold stop release
  by_cases hq : q = this
  · subst hq
    by_cases hp : (w.heap q).parent <;>
      simp [World.setSession, hp, TcpTest.releaseTcpTestSession_heap]
  · by_cases hp : (w.heap this).parent <;>
      simp [World.setSession, hp, hq, TcpTest.releaseTcpTestSession_heap]

theorem stop_sessions (this : Nat) (w : World) :
    (stop this w).sessions =
      if (w.heap this).parent then w.sessions.filter (fun q => q ≠ this) else w.sessions := by
  unfold stop release
  by_cases hp : (w.heap this).parent <;>
    simp [World.setSession, hp, TcpTest.releaseTcpTestSession_sessions]

theorem stop_calls (this : Nat) (w : World) : (stop this w).calls = w.calls := by
  unfold stop release
  by_cases hp : (w.heap this).parent <;>
    simp [World.setSession, hp, TcpTest.releaseTcpTestSession_calls]

theorem stop_cleanTimer (this : Nat) (w : World) : (stop this w).cleanTimer = w.cleanTimer := by
  unfold stop release
  by_cases hp : (w.heap this).parent <;>
    simp [World.setSession, hp, TcpTest.releaseTcpTestSession_cleanTimer]

theorem stop_brk (this : Nat) (w : World) : (stop this w).brk = w.brk := by
  unfold stop release
  by_cases hp : (w.heap this).parent <;>
    simp [World.setSession, hp, TcpTest.releaseTcpTestSession_brk]

end TcpTestSession

namespace TcpTestSession

theorem stop_callback (this : Nat) (w : World) :
    ((stop this w).heap this).callback = none := by
  rw [stop_heap]; simp

theorem stop_isComplete (this : Nat) (w : World) : isComplete this (stop this w) = true := by
  unfold isComplete; rw [stop_heap]; simp

theorem allOk_of_reset {this : Nat} {w : World} (h : (w.heap this).callback = none) :
    allOk this w = stop this w := by
  simp [allOk, h]

theorem fail_of_reset {this : Nat} {w : World} (h : (w.heap this).callback = none) :
    fail this w = stop this w := by
  simp [fail, h]

theorem deliver_of_reset {this : Nat} {w : World} (h : (w.heap this).callback = none)
    (e : Event) : deliver this e w = stop this w := by
  cases e
  · exact allOk_of_reset h
  · exact fail_of_reset h
  · rfl

theorem deliverAll_of_reset (this : Nat) (evs : List Event) :
    ∀ w : World, (w.heap this).callback = none → isComplete this w = true →
      (deliverAll this evs w).calls = w.calls ∧
      isComplete this (deliverAll this evs w) = true := by
  induction evs with
  | nil => intro w _ hc; exact ⟨rfl, hc⟩
  | cons e evs ih =>
    intro w h _
    have hd : deliverAll this (e :: evs) w = deliverAll this evs (stop this w) := by
      simp [deliverAll, deliver_of_reset h]
    rw [hd]
    have := ih (stop this w) (stop_callback this w) (stop_isComplete this w)
    rw [stop_calls] at this
    exact this

theorem run_callback (this : Nat) (onOk onErr : Bool) (w : World) :
    ((run this onOk onErr w).heap this).callback = some ⟨onOk, onErr⟩ := by
  simp [run, World.setSession]

theorem run_calls (this : Nat) (onOk onErr : Bool) (w : World) :
    (run this onOk onErr w).calls = w.calls := rfl

theorem deliverAll_cons (this : Nat) (e : Event) (evs : List Event) (w : World) :
    deliverAll this (e :: evs) w = deliverAll this evs (deliver this e w) := rfl

theorem deliver_callback (this : Nat) (e : Event) (w : World) :
    ((deliver this e w).heap this).callback = none ∧
    isComplete this (deliver this e w) = true := by
  cases e <;> simp only [deliver, allOk, fail] <;>
    exact ⟨stop_callback _ _, stop_isComplete _ _⟩

/-- Claim C1: after `run(onOk, onErr)`, whatever sequence of `allOk()`, `fail(ec, what)`
and `stop()` is delivered to the session, the callbacks invoked since `run` are at most
one entry: never both callbacks, never one of them twice. -/
theorem callbacks_at_most_once (this : Nat) (onOk onErr : Bool) (evs : List Event)
    (w : World) :
    ∃ extra, (deliverAll this evs (run this onOk onErr w)).calls = w.calls ++ extra ∧
      extra.length ≤ 1 := by
  cases evs with
  | nil => exact ⟨[], by simp [deliverAll, run_calls], by simp⟩
  | cons e evs =>
    rw [deliverAll_cons]
    obtain ⟨h1, h2⟩ := deliver_callback this e (run this onOk onErr w)
    rw [(deliverAll_of_reset this evs _ h1 h2).1]
    cases e
    · by_cases hk : onOk = true
      · exact ⟨[(this, Fired.onOk)], by
          simp [deliver, allOk, run_callback, hk, stop_calls, World.invoke, run_calls], by simp⟩
      · exact ⟨[], by
          simp [deliver, allOk, run_callback, hk, stop_calls, run_calls], by simp⟩
    · by_cases hk : onErr = true
      · exact ⟨[(this, Fired.onErr)], by
          simp [deliver, fail, run_callback, hk, stop_calls, World.invoke, run_calls], by simp⟩
      · exact ⟨[], by
          simp [deliver, fail, run_callback, hk, stop_calls, run_calls], by simp⟩
    · exact ⟨[], by simp [deliver, stop_calls, run_calls], by simp⟩

/-- Claim C2, as amended: after `run` with both callbacks set, the first event delivered
decides what is ever invoked. When it is `allOk()` exactly `onOk` is invoked, once; when
it is `fail(ec, what)` exactly `onErr`, once; when it is `stop()` nothing is invoked,
then or later. In all three cases `isComplete()` is true from that event on. -/
theorem completion_fires_by_first_event (this : Nat) (rest : List Event) (w : World) :
    ((deliverAll this (Event.allOk :: rest) (run this true true w)).calls
        = w.calls ++ [(this, Fired.onOk)] ∧
      isComplete this (deliverAll this (Event.allOk :: rest) (run this true true w)) = true) ∧
    ((deliverAll this (Event.fail :: rest) (run this true true w)).calls
        = w.calls ++ [(this, Fired.onErr)] ∧
      isComplete this (deliverAll this (Event.fail :: rest) (run this true true w)) = true) ∧
    ((deliverAll this (Event.stop :: rest) (run this true true w)).calls = w.calls ∧
      isComplete this (deliverAll this (Event.stop :: rest) (run this true true w)) = true) := by
  refine ⟨?_, ?_, ?_⟩
  all_goals
    rw [deliverAll_cons]
    obtain ⟨h1, h2⟩ := deliver_callback this _ (run this true true w)
    obtain ⟨h3, h4⟩ := deliverAll_of_reset this rest _ h1 h2
    refine ⟨?_, h4⟩
    rw [h3]
    simp [deliver, allOk, fail, run_callback, stop_calls, World.invoke, run_calls]

/-- Claim C3: once `stop()` has returned, no later `allOk()`, `fail(ec, what)` or `stop()`
on the session invokes a callback (`stop()` itself invokes none), and `isComplete()` is
true after `stop()` and after every such later call. -/
theorem no_callback_after_stop (this : Nat) (evs : List Event) (w : World) :
    (deliverAll this evs (stop this w)).calls = (stop this w).calls ∧
    (stop this w).calls = w.calls ∧
    isComplete this (deliverAll this evs (stop this w)) = true :=
  ⟨(deliverAll_of_reset this evs _ (stop_callback this w) (stop_isComplete this w)).1,
    stop_calls this w,
    (deliverAll_of_reset this evs _ (stop_callback this w) (stop_isComplete this w)).2⟩

theorem stop_idempotent (this : Nat) (w : World) : stop this (stop this w) = stop this w := by
  have hpar : ((stop this w).heap this).parent = (w.heap this).parent := by
    rw [stop_heap]; simp
  apply World.ext
  · rw [stop_heap, stop_heap]; simp
  · simp [stop_brk]
  · simp [stop_cleanTimer]
  · rw [stop_sessions, hpar, stop_sessions]
    by_cases hp : (w.heap this).parent <;> simp [hp]
  · simp [stop_calls]

end TcpTestSession

namespace TcpTestSession

theorem stop_parent (this q : Nat) (w : World) :
    ((stop this w).heap q).parent = (w.heap q).parent := by
  rw [stop_heap]
  by_cases hq : q = this
  · subst hq; simp
  · simp [hq]

theorem stop_isComplete_mono (this q : Nat) (w : World) (h : isComplete q w = true) :
    isComplete q (stop this w) = true := by
  unfold isComplete at *
  rw [stop_heap]
  by_cases hq : q = this
  · subst hq; simp
  · simpa [hq] using h

theorem stop_callback_mono (this q : Nat) (w : World) (h : (w.heap q).callback = none) :
    ((stop this w).heap q).callback = none := by
  rw [stop_heap]
  by_cases hq : q = this
  · subst hq; simp
  · simpa [hq] using h

theorem stop_erases {this : Nat} {w : World} (h : (w.heap this).parent = true) :
    this ∉ (stop this w).sessions := by
  rw [stop_sessions]; simp [h]

end TcpTestSession

namespace TcpTest

theorem stopEach_faults (l : List Nat) :
    ∀ w : World, (∃ a ∈ l, a = 0 ∨ (w.heap a).parent = true) →
      ∃ f, stopEach l w = .error f := by
  induction l with
  | nil => intro w h; simp at h
  | cons b rest ih =>
    intro w h
    unfold stopEach
    by_cases hb : b = 0
    · exact ⟨Fault.nullDereference, by simp [hb]⟩
    · by_cases hin : b ∈ (TcpTestSession.stop b w).sessions
      · simp only [hb, if_false, hin, if_true]
        apply ih
        obtain ⟨a, ha, hcase⟩ := h
        rcases List.mem_cons.mp ha with rfl | hmem
        · rcases hcase with h0 | hp
          · exact absurd h0 hb
          · exact absurd hin (TcpTestSession.stop_erases hp)
        · exact ⟨a, hmem, by rw [TcpTestSession.stop_parent]; exact hcase⟩
      · exact ⟨Fault.invalidatedIterator, by simp [hb, hin]⟩

theorem stopEach_ok (l : List Nat) :
    ∀ w w' : World, stopEach l w = .ok w' →
      w'.sessions = w.sessions ∧ w'.calls = w.calls ∧ w'.cleanTimer = w.cleanTimer ∧
      w'.brk = w.brk ∧
      (∀ q, TcpTestSession.isComplete q w = true → TcpTestSession.isComplete q w' = true) ∧
      (∀ q, (w.heap q).callback = none → (w'.heap q).callback = none) ∧
      (∀ a ∈ l, TcpTestSession.isComplete a w' = true ∧ (w'.heap a).callback = none ∧
        (w.heap a).parent = false ∧ a ≠ 0) := by
  induction l with
  | nil =>
    intro w w' h
    simp only [stopEach, Except.ok.injEq] at h
    subst h
    simp
  | cons b rest ih =>
    intro w w' h
    unfold stopEach at h
    by_cases hb : b = 0
    · simp [hb] at h
    · by_cases hin : b ∈ (TcpTestSession.stop b w).sessions
      · simp only [hb, if_false, hin, if_true] at h
        obtain ⟨h1, h2, h3, h4, h5, h6, h7⟩ := ih _ _ h
        have hpar : (w.heap b).parent = false := by
          by_contra hp
          exact TcpTestSession.stop_erases (by simpa using hp) hin
        refine ⟨?_, ?_, ?_, ?_, ?_, ?_, ?_⟩
        · rw [h1, TcpTestSession.stop_sessions]; simp [hpar]
        · rw [h2, TcpTestSession.stop_calls]
        · rw [h3, TcpTestSession.stop_cleanTimer]
        · rw [h4, TcpTestSession.stop_brk]
        · intro q hq
          exact h5 q (TcpTestSession.stop_isComplete_mono b q w hq)
        · intro q hq
          exact h6 q (TcpTestSession.stop_callback_mono b q w hq)
        · intro a ha
          rcases List.mem_cons.mp ha with rfl | hmem
          · exact ⟨h5 a (TcpTestSession.stop_isComplete a w),
              h6 a (TcpTestSession.stop_callback a w), hpar, hb⟩
          · obtain ⟨c1, c2, c3, c4⟩ := h7 a hmem
            rw [TcpTestSession.stop_parent] at c3
            exact ⟨c1, c2, c3, c4⟩
      · simp [hb, hin] at h

theorem stopEach_parent (l : List Nat) :
    ∀ w w' : World, stopEach l w = .ok w' → ∀ q, (w'.heap q).parent = (w.heap q).parent := by
  induction l with
  | nil =>
    intro w w' h q
    simp only [stopEach, Except.ok.injEq] at h
    subst h; rfl
  | cons b rest ih =>
    intro w w' h q
    unfold stopEach at h
    by_cases hb : b = 0
    · simp [hb] at h
    · by_cases hin : b ∈ (TcpTestSession.stop b w).sessions
      · simp only [hb, if_false, hin, if_true] at h
        rw [ih _ _ h q, TcpTestSession.stop_parent]
      · simp [hb, hin] at h

theorem sweep_of_empty {w : World} (h : w.sessions = []) : sweep w = w := by
  apply World.ext <;> simp [sweep, h]

/-- Where `TcpTest::stop()` stays within defined behaviour it leaves no timer and an empty
registry, has invoked no callback and has completed every session of the registry. -/
theorem stop_ok {w w' : World} (h : stop w = .ok w') :
    w'.cleanTimer = false ∧ w'.sessions = [] ∧ w'.calls = w.calls ∧
    (∀ a ∈ w.sessions, TcpTestSession.isComplete a w' = true ∧
      (w'.heap a).callback = none) := by
  unfold stop at h
  generalize hw0 : (if w.cleanTimer = true then { w with cleanTimer := false } else w) = w0 at h
  have hs0 : w0.sessions = w.sessions := by subst hw0; split <;> rfl
  have hc0 : w0.calls = w.calls := by subst hw0; split <;> rfl
  have ht0 : w0.cleanTimer = false := by
    subst hw0
    by_cases ht : w.cleanTimer = true
    · simp [ht]
    · simp [ht]
  cases hr : stopEach w0.sessions w0 with
  | error f => simp [hr] at h
  | ok w2 =>
    simp only [hr, Except.ok.injEq] at h
    obtain ⟨h1, h2, h3, _, _, _, h7⟩ := stopEach_ok _ _ _ hr
    subst h
    have hall : ∀ a ∈ w2.sessions, TcpTestSession.isComplete a w2 = true := by
      intro a ha
      rw [h1] at ha
      exact (h7 a ha).1
    refine ⟨by simp [sweep, h3, ht0], ?_, by simp [sweep, h2, hc0], ?_⟩
    · simp only [sweep, List.filter_eq_nil_iff]
      intro a ha
      simp [hall a ha]
    · intro a ha
      rw [← hs0] at ha
      exact ⟨(h7 a ha).1, (h7 a ha).2.1⟩

theorem stop_frame {w w' : World} (h : stop w = .ok w') :
    w'.brk = w.brk ∧ ∀ q, (w'.heap q).parent = (w.heap q).parent := by
  unfold stop at h
  generalize hw0 : (if w.cleanTimer = true then { w with cleanTimer := false } else w) = w0 at h
  have hb0 : w0.brk = w.brk := by subst hw0; split <;> rfl
  have hh0 : w0.heap = w.heap := by subst hw0; split <;> rfl
  cases hr : stopEach w0.sessions w0 with
  | error f => simp [hr] at h
  | ok w2 =>
    simp only [hr, Except.ok.injEq] at h
    obtain ⟨_, _, _, h4, _⟩ := stopEach_ok _ _ _ hr
    have hp := stopEach_parent _ _ _ hr
    subst h
    exact ⟨by simp [sweep, h4, hb0], fun q => by simp [sweep, hp q, hh0]⟩

/-- A second `TcpTest::stop()` after one that stayed within defined behaviour changes nothing. -/
theorem stop_again {w w' : World} (h : stop w = .ok w') : stop w' = .ok w' := by
  obtain ⟨h1, h2, _, _⟩ := stop_ok h
  unfold stop
  simp only [h1, Bool.false_eq_true, if_false, h2, stopEach]
  rw [sweep_of_empty h2]

/-- `TcpTest::stop()` leaves defined behaviour as soon as the registry holds a null
pointer or a session whose `parent` can be locked. -/
theorem stop_faults {w : World} (h : ∃ a ∈ w.sessions, a = 0 ∨ (w.heap a).parent = true) :
    ∃ f, stop w = .error f := by
  unfold stop
  generalize hw0 : (if w.cleanTimer = true then { w with cleanTimer := false } else w) = w0
  have hs0 : w0.sessions = w.sessions := by subst hw0; split <;> rfl
  have hh0 : w0.heap = w.heap := by subst hw0; split <;> rfl
  obtain ⟨f, hf⟩ := stopEach_faults w0.sessions w0 (by rw [hs0, hh0]; exact h)
  exact ⟨f, by simp [hf]⟩

end TcpTest


namespace TcpTest

theorem createTest_brk (fr : Bool) (m r : Nat) (w : World) :
    (createTest fr m r w).2.brk = w.brk + 1 := by
  unfold createTest
  by_cases ht : w.cleanTimer <;> simp [ht, World.setSession] <;> split <;> rfl

theorem createTest_heap (fr : Bool) (m r : Nat) (w : World) :
    (createTest fr m r w).2.heap =
      Function.update w.heap (w.brk + 1) ⟨none, true, if m > 0 then r else 0, fr⟩ := by
  unfold createTest
  by_cases ht : w.cleanTimer <;> simp [ht, World.setSession] <;> split <;> rfl

theorem createTest_mem (fr : Bool) (m r : Nat) (w : World) (p : Nat) :
    p ∈ (createTest fr m r w).2.sessions ↔ p = w.brk + 1 ∨ p ∈ w.sessions := by
  unfold createTest
  by_cases ht : w.cleanTimer <;> by_cases hin : w.brk + 1 ∈ w.sessions <;>
    simp [ht, World.setSession, hin]
  all_goals
    intro h; exact h ▸ hin

end TcpTest



theorem onSession_ok {w w' : World} {p : Nat} {f : World → World}
    (h : onSession w p f = .ok w') : 1 ≤ p ∧ p ≤ w.brk ∧ w' = f w := by
  unfold onSession at h
  by_cases h0 : p = 0
  · simp [h0] at h
  · by_cases h1 : p ≤ w.brk
    · simp only [h0, if_false, h1, if_true, Except.ok.injEq] at h
      exact ⟨by omega, h1, h.symm⟩
    · simp [h0, h1] at h

namespace RegistryInv

theorem at_init : RegistryInv World.init :=
  ⟨by intro p hp; simp [World.init] at hp, by intro p h1 h2; simp [World.init] at h2; omega⟩

theorem after_createTest {w : World} (h : RegistryInv w) (m r : Nat) :
    RegistryInv (TcpTest.createTest false m r w).2 := by
  constructor
  · intro p hp
    rw [TcpTest.createTest_mem] at hp
    rw [TcpTest.createTest_brk]
    unfold TcpTestSession.isComplete
    rw [TcpTest.createTest_heap]
    rcases hp with rfl | hp
    · simp
    · obtain ⟨h1, h2, h3⟩ := h.live p hp
      have hne : p ≠ w.brk + 1 := by omega
      exact ⟨h1, by omega, by simpa [hne] using h3⟩
  · intro p h1 h2
    rw [TcpTest.createTest_brk] at h2
    rw [TcpTest.createTest_heap]
    by_cases hp : p = w.brk + 1
    · subst hp; simp
    · simpa [hp] using h.owned p h1 (by omega)

theorem after_run {w : World} (h : RegistryInv w) (p : Nat) (a b : Bool) :
    RegistryInv (TcpTestSession.run p a b w) := by
  constructor
  · intro q hq
    obtain ⟨h1, h2, h3⟩ := h.live q hq
    refine ⟨h1, h2, ?_⟩
    unfold TcpTestSession.isComplete at *
    by_cases hqp : q = p
    · subst hqp; simpa [TcpTestSession.run, World.setSession] using h3
    · simpa [TcpTestSession.run, World.setSession, hqp] using h3
  · intro q h1 h2
    have := h.owned q h1 h2
    by_cases hqp : q = p
    · subst hqp; simpa [TcpTestSession.run, World.setSession] using this
    · simpa [TcpTestSession.run, World.setSession, hqp] using this

theorem after_invoke {w : World} (h : RegistryInv w) (p : Nat) (f : Fired) :
    RegistryInv (w.invoke p f) :=
  ⟨h.live, h.owned⟩

theorem after_stop {w : World} (h : RegistryInv w) {p : Nat} (hp1 : 1 ≤ p) (hp2 : p ≤ w.brk) :
    RegistryInv (TcpTestSession.stop p w) := by
  have hpar := h.owned p hp1 hp2
  constructor
  · intro q hq
    rw [TcpTestSession.stop_sessions] at hq
    simp only [hpar, if_true, List.mem_filter, decide_eq_true_eq] at hq
    obtain ⟨h1, h2, h3⟩ := h.live q hq.1
    rw [TcpTestSession.stop_brk]
    refine ⟨h1, h2, ?_⟩
    unfold TcpTestSession.isComplete at *
    rw [TcpTestSession.stop_heap]
    simpa [hq.2] using h3
  · intro q h1 h2
    rw [TcpTestSession.stop_brk] at h2
    rw [TcpTestSession.stop_parent]
    exact h.owned q h1 h2

theorem after_allOk {w : World} (h : RegistryInv w) {p : Nat} (hp1 : 1 ≤ p) (hp2 : p ≤ w.brk) :
    RegistryInv (TcpTestSession.allOk p w) := by
  unfold TcpTestSession.allOk
  split
  · split
    · exact (h.after_invoke p Fired.onOk).after_stop hp1 hp2
    · exact h.after_stop hp1 hp2
  · exact h.after_stop hp1 hp2

theorem after_fail {w : World} (h : RegistryInv w) {p : Nat} (hp1 : 1 ≤ p) (hp2 : p ≤ w.brk) :
    RegistryInv (TcpTestSession.fail p w) := by
  unfold TcpTestSession.fail
  split
  · split
    · exact (h.after_invoke p Fired.onErr).after_stop hp1 hp2
    · exact h.after_stop hp1 hp2
  · exact h.after_stop hp1 hp2

theorem of_subRegistry {w w' : World} (h : RegistryInv w) (hh : w'.heap = w.heap)
    (hb : w'.brk = w.brk) (hs : ∀ p ∈ w'.sessions, p ∈ w.sessions) : RegistryInv w' := by
  constructor
  · intro p hp
    have := h.live p (hs p hp)
    unfold TcpTestSession.isComplete at *
    rw [hh, hb]; exact this
  · intro p h1 h2
    rw [hh]; rw [hb] at h2
    exact h.owned p h1 h2

/-- In a state that satisfies the invariant the sweep finds nothing to erase. -/
theorem sweep_eq {w : World} (h : RegistryInv w) : TcpTest.sweep w = w := by
  apply World.ext <;> simp only [TcpTest.sweep]
  rw [List.filter_eq_self]
  intro p hp
  obtain ⟨h1, _, h3⟩ := h.live p hp
  have : p ≠ 0 := by omega
  simp [this, h3]

theorem after_releaseTcpTestSession {w : World} (h : RegistryInv w) (p : Nat) :
    RegistryInv (TcpTest.releaseTcpTestSession p w) := by
  apply h.of_subRegistry (TcpTest.releaseTcpTestSession_heap p w)
    (TcpTest.releaseTcpTestSession_brk p w)
  intro q hq
  rw [TcpTest.releaseTcpTestSession_sessions] at hq
  exact (List.mem_filter.mp hq).1

theorem after_cleanTimerHandler {w w' : World} (h : RegistryInv w) {e : Bool}
    (hs : TcpTest.cleanTimerHandler e w = .ok w') : RegistryInv w' := by
  unfold TcpTest.cleanTimerHandler at hs
  rw [h.sweep_eq] at hs
  by_cases he : e = true <;> by_cases ht : w.cleanTimer = true <;>
    simp [he, ht] at hs
  · subst hs; exact h.of_subRegistry rfl rfl (fun _ hp => hp)
  · subst hs; exact h

theorem after_proberStop {w w' : World} (h : RegistryInv w) (hs : TcpTest.stop w = .ok w') :
    RegistryInv w' := by
  obtain ⟨_, hnil, _, _⟩ := TcpTest.stop_ok hs
  obtain ⟨hb, hp⟩ := TcpTest.stop_frame hs
  constructor
  · intro p hp; simp [hnil] at hp
  · intro p h1 h2
    rw [hp]; rw [hb] at h2
    exact h.owned p h1 h2

theorem after_step {w w' : World} (h : RegistryInv w) {op : Op} (hs : step w op = .ok w') :
    RegistryInv w' := by
  cases op with
  | createTest m r =>
    simp only [step, Except.ok.injEq] at hs
    subst hs; exact h.after_createTest m r
  | run p a b =>
    obtain ⟨_, _, rfl⟩ := onSession_ok hs
    exact h.after_run p a b
  | allOk p =>
    obtain ⟨h1, h2, rfl⟩ := onSession_ok hs
    exact h.after_allOk h1 h2
  | fail p =>
    obtain ⟨h1, h2, rfl⟩ := onSession_ok hs
    exact h.after_fail h1 h2
  | sessionStop p =>
    obtain ⟨h1, h2, rfl⟩ := onSession_ok hs
    exact h.after_stop h1 h2
  | cleanTimerFired e => exact h.after_cleanTimerHandler hs
  | proberStop => exact h.after_proberStop hs
  | releaseTcpTestSession p =>
    simp only [step, Except.ok.injEq] at hs
    subst hs; exact h.after_releaseTcpTestSession p

theorem after_exec (ops : List Op) : ∀ {w w' : World}, RegistryInv w →
    exec ops w = .ok w' → RegistryInv w' := by
  induction ops with
  | nil =>
    intro w w' h hs
    simp only [exec, Except.ok.injEq] at hs
    subst hs; exact h
  | cons op ops ih =>
    intro w w' h hs
    unfold exec at hs
    cases hst : step w op with
    | error f => simp [hst] at hs
    | ok w1 =>
      simp only [hst] at hs
      exact ih (h.after_step hst) hs

end RegistryInv

/-- Every state a sequence of calls on a new `TcpTest` reaches satisfies the registry
invariant. -/
theorem registryInv_of_exec {ops : List Op} {w : World} (h : exec ops World.init = .ok w) :
    RegistryInv w :=
  RegistryInv.at_init.after_exec ops h

/-- In every state reached with a session still registered, `TcpTest::stop()` leaves
defined behaviour. -/
theorem TcpTest.stop_faults_of_exec {ops : List Op} {w : World}
    (h : exec ops World.init = .ok w) (hne : w.sessions ≠ []) :
    ∃ f, TcpTest.stop w = .error f := by
  have hinv := registryInv_of_exec h
  cases hl : w.sessions with
  | nil => exact absurd hl hne
  | cons a rest =>
    have ha : a ∈ w.sessions := by rw [hl]; exact List.mem_cons_self _ _
    obtain ⟨h1, h2, _⟩ := hinv.live a ha
    exact TcpTest.stop_faults ⟨a, ha, Or.inr (hinv.owned a h1 h2)⟩

/-- Claim C2, counterexample: on a new probe, `run` with both callbacks set followed by
`stop()` leaves `isComplete()` true with no callback invoked, so a complete session need
not have invoked exactly one of them. -/
theorem TcpTestSession.run_stop_completes_without_callback :
    TcpTestSession.isComplete 1
      (TcpTestSession.deliverAll 1 [Event.stop] (TcpTestSession.run 1 true true oneProbe))
      = true ∧
    (TcpTestSession.deliverAll 1 [Event.stop]
      (TcpTestSession.run 1 true true oneProbe)).calls = [] ∧
    ¬ (TcpTestSession.isComplete 1
        (TcpTestSession.deliverAll 1 [Event.stop] (TcpTestSession.run 1 true true oneProbe))
        = true →
      (TcpTestSession.deliverAll 1 [Event.stop]
        (TcpTestSession.run 1 true true oneProbe)).calls.length = 1) := by
  decide

/-- Claim C7, at the failing input: on a prober with one registered session the first
`TcpTest::stop()` already advances an iterator that the call erased under it, so neither
one call nor two calls leave a state; the session's own `stop()` is idempotent there. -/
theorem TcpTest.stop_twice_on_oneProbe :
    TcpTest.stop oneProbe = .error Fault.invalidatedIterator ∧
    (TcpTest.stop oneProbe).bind TcpTest.stop = .error Fault.invalidatedIterator ∧
    (TcpTestSession.stop 1 (TcpTestSession.stop 1 oneProbe)).sessions
      = (TcpTestSession.stop 1 oneProbe).sessions :=
  ⟨rfl, rfl, rfl⟩

/-- Claim C8, at the failing input: on a prober with two sessions in flight,
`TcpTest::stop()` erases session `1` under the loop iterator and leaves defined
behaviour on advancing it, with session `2` still registered and not complete. -/
theorem TcpTest.stop_on_twoProbes :
    twoProbes.sessions = [1, 2] ∧
    TcpTest.stop twoProbes = .error Fault.invalidatedIterator ∧
    (TcpTestSession.stop 1 twoProbes).sessions = [2] ∧
    TcpTestSession.isComplete 2 (TcpTestSession.stop 1 twoProbes) = false :=
  ⟨rfl, rfl, rfl, rfl⟩

/-- Claim C10: in every state that calls of `createTest`, `run`, `allOk`, `fail`, the
session's `stop`, the timer handler, `TcpTest::stop` and `releaseTcpTestSession` reach
from a new `TcpTest` (a new session not being complete), no registered pointer is null
and no registered session is complete; `stop()` on a created session leaves it out of
the registry and complete; so the sweep erases nothing and the timer handler leaves
the registry as it found it. -/
theorem registry_holds_no_complete_session (ops : List Op) (w : World)
    (h : exec ops World.init = .ok w) :
    (∀ p ∈ w.sessions, p ≠ 0 ∧ TcpTestSession.isComplete p w = false) ∧
    (∀ p, 1 ≤ p → p ≤ w.brk →
      p ∉ (TcpTestSession.stop p w).sessions ∧
      TcpTestSession.isComplete p (TcpTestSession.stop p w) = true) ∧
    TcpTest.sweep w = w ∧
    (∀ w', TcpTest.cleanTimerHandler false w = .ok w' → w'.sessions = w.sessions) := by
  have hinv := registryInv_of_exec h
  refine ⟨?_, ?_, hinv.sweep_eq, ?_⟩
  · intro p hp
    obtain ⟨h1, _, h3⟩ := hinv.live p hp
    exact ⟨by omega, h3⟩
  · intro p h1 h2
    exact ⟨TcpTestSession.stop_erases (hinv.owned p h1 h2), TcpTestSession.stop_isComplete p w⟩
  · intro w' hw
    unfold TcpTest.cleanTimerHandler at hw
    rw [hinv.sweep_eq] at hw
    by_cases ht : w.cleanTimer = true <;> simp [ht] at hw
    rw [hw]

theorem registry_holds_no_complete_session_witness :
    exec sampleOps World.init = .ok (afterOps sampleOps) ∧
    (afterOps sampleOps).sessions = [3] ∧
    ((∀ p ∈ (afterOps sampleOps).sessions,
        p ≠ 0 ∧ TcpTestSession.isComplete p (afterOps sampleOps) = false) ∧
    (∀ p, 1 ≤ p → p ≤ (afterOps sampleOps).brk →
      p ∉ (TcpTestSession.stop p (afterOps sampleOps)).sessions ∧
      TcpTestSession.isComplete p (TcpTestSession.stop p (afterOps sampleOps)) = true) ∧
    TcpTest.sweep (afterOps sampleOps) = afterOps sampleOps ∧
    (∀ w', TcpTest.cleanTimerHandler false (afterOps sampleOps) = .ok w' →
      w'.sessions = (afterOps sampleOps).sessions)) :=
  ⟨rfl, rfl, registry_holds_no_complete_session sampleOps (afterOps sampleOps) rfl⟩
